import Mathlib

/-!
Verification of the uigen in-memory component build pipeline and of its
chat input component, as a shallow embedding in Lean 4.

The repository's source drop ships one UI source file
(`src/components/chat/MessageInput.tsx`), which is embedded from its
source below. The build pipeline (VirtualFileStore, SourceTransformer,
ModuleResolver, PreviewAssembler, owned by `src/lib/file-system.ts` and
`src/lib/transform/jsx-transformer.ts`, absent from the drop) is
modelled from its written specification.

Layout: all definitions first, then all theorems.
-/

namespace UIGen

/-! ### Path normalization (modelled from the spec)

"Every path is rewritten to start with exactly one `/`, internal `//`
collapsed, no trailing `/` except the root path itself." A path is its
character list, split into maximal slash-free nonempty segments and
rejoined behind a single leading slash. -/

/-- Modelled from the spec: split a character list at `/` boundaries into
its nonempty slash-free segments (duplicate, leading and trailing slashes
produce no segments). -/
def segsOf : List Char → List (List Char)
  | [] => []
  | c :: cs =>
    if c = '/' then segsOf cs
    else (c :: cs.takeWhile (fun d => d ≠ '/')) :: segsOf (cs.dropWhile (fun d => d ≠ '/'))
termination_by l => l.length
decreasing_by
  · simp only [List.length_cons]
    omega
  · simp only [List.length_cons]
    have h : ∀ (q : Char → Bool) (l : List Char),
        (l.dropWhile q).length ≤ l.length := by
      intro q l
      induction l with
      | nil => simp
      | cons c2 cs2 ih =>
        rw [List.dropWhile_cons]
        split
        · simp
          omega
        · simp
    have h2 := h (fun d => decide (d ≠ '/')) cs
    omega

/-- Rejoin segments with single interior slashes. -/
def joinSegs : List (List Char) → List Char
  | [] => []
  | [s] => s
  | s :: t :: rest => s ++ '/' :: joinSegs (t :: rest)

/-- Modelled from the spec: path normalization on character lists —
exactly one leading slash, internal runs of slashes collapsed, no
trailing slash except for the root itself. -/
def normalizeChars (l : List Char) : List Char :=
  '/' :: joinSegs (segsOf l)

/-- Modelled from the spec: path normalization on strings. -/
def normalize (p : String) : String :=
  ⟨normalizeChars p.data⟩

/-! ### VirtualFileStore (modelled from the spec)

"`rename(oldPath, newPath)` — fails with `Conflict` if newPath already
exists; preserves content and, for directories, all descendants under
rewritten prefixes." The store is an association list from normalized
path to node. -/

/-- A node is a file or a directory. -/
inductive FKind where
  | file : FKind
  | directory : FKind
deriving DecidableEq, Repr

/-- Modelled from the spec: one file or directory; `content` is only
meaningful for file nodes. -/
structure FileNode where
  kind : FKind
  content : String
deriving DecidableEq, Repr

/-- Modelled from the spec: the store maps paths to nodes. -/
abbrev Store := List (String × FileNode)

/-- Modelled from the spec: the caller-correctable store error taxonomy. -/
inductive StoreError where
  | invalidPath : StoreError
  | notFound : StoreError
  | conflict : StoreError
  | ambiguousMatch : StoreError
deriving DecidableEq, Repr

/-- True iff some node lives at path `p`. -/
def existsPath (s : Store) (p : String) : Bool :=
  s.any (fun e => e.1 = p)

/-- Modelled from the spec: rewrite one path under a rename of `oldPath`
to `newPath` — the path itself maps to `newPath`, a strict descendant
keeps its suffix behind the new prefix, anything else is untouched. -/
def rewritePath (oldPath newPath p : String) : String :=
  if p = oldPath then newPath
  else if (oldPath.data ++ ['/']).isPrefixOf p.data then
    ⟨newPath.data ++ p.data.drop oldPath.data.length⟩
  else p

/-- Modelled from the spec: `rename` fails with `Conflict` when the
destination exists, with `NotFound` when the source is absent, and
otherwise rewrites every path in the store under the renamed prefix,
keeping each node (hence its content) unchanged. -/
def rename (s : Store) (oldPath newPath : String) : Except StoreError Store :=
  if existsPath s newPath then .error .conflict
  else if existsPath s oldPath then
    .ok (s.map (fun e => (rewritePath oldPath newPath e.1, e.2)))
  else .error .notFound

/-! ### Snapshot and ModuleResolver (modelled from the spec)

A snapshot maps paths to source files. The spec fixes no concrete
grammar for extracting the statically-literal import specifiers from a
file's text (that job belongs to the transformer's parser), so a source
file carries its specifier list alongside its raw text. -/

/-- Modelled from the spec: one virtual source file — its raw text and
the statically-literal import specifiers appearing in it. -/
structure SrcFile where
  content : String
  imports : List String
deriving DecidableEq, Repr

/-- Modelled from the spec: an immutable point-in-time view of all
virtual files. -/
abbrev Snapshot := List (String × SrcFile)

/-- The paths of a snapshot, in order. -/
def keys (snap : Snapshot) : List String :=
  snap.map (fun e => e.1)

/-- Look a path up in a snapshot. -/
def lookupFile (snap : Snapshot) (p : String) : Option SrcFile :=
  match snap.find? (fun e => e.1 = p) with
  | some e => some e.2
  | none => none

/-- `pre` is a prefix of `s`, computed on character lists. -/
def startsWithStr (pre s : String) : Bool :=
  pre.data.isPrefixOf s.data

/-- `suf` is a suffix of `s`, computed on character lists. -/
def endsWithStr (suf s : String) : Bool :=
  suf.data.isSuffixOf s.data

/-- True iff the path carries a `.jsx` or `.tsx` extension. -/
def hasComponentExt (p : String) : Bool :=
  endsWithStr ".jsx" p || endsWithStr ".tsx" p

/-- The lexicographically-least string of a list, if any. -/
def lexFirst : List String → Option String
  | [] => none
  | p :: rest => some (rest.foldl (fun a b => if b < a then b else a) p)

/-- Modelled from the spec: entry-point selection — prefer `/App.jsx` or
`/App.tsx`, else `/index.jsx`/`/index.tsx`, else the
lexicographically-first file with a `.jsx`/`.tsx` extension; none when
no such file exists. -/
def chooseEntry (paths : List String) : Option String :=
  if paths.contains "/App.jsx" then some "/App.jsx"
  else if paths.contains "/App.tsx" then some "/App.tsx"
  else if paths.contains "/index.jsx" then some "/index.jsx"
  else if paths.contains "/index.tsx" then some "/index.tsx"
  else lexFirst (paths.filter hasComponentExt)

/-- Modelled from the spec: where one import specifier resolves to — a
local module, a CDN URL, or a synthetic placeholder module. -/
inductive Resolution where
  | localFile (path : String) : Resolution
  | cdnUrl (url : String) : Resolution
  | placeholder (specifier : String) : Resolution
deriving DecidableEq, Repr

/-- Modelled from the spec: the probe order for local resolution — the
bare path, then `.jsx`, `.tsx`, `.js`, `.ts`, then `/index.{jsx,tsx,js,ts}`. -/
def probeSuffixes : List String :=
  [".jsx", ".tsx", ".js", ".ts", "/index.jsx", "/index.tsx", "/index.js", "/index.ts"]

/-- Modelled from the spec: resolve a root-relative base path against the
snapshot's paths by extension probing. -/
def resolveLocalPath (paths : List String) (base : String) : Option String :=
  (base :: probeSuffixes.map (fun suf => base ++ suf)).find? (fun c => paths.contains c)

/-- Modelled from the spec: the fixed pinned CDN URL of the framework
runtime (major version fixed). -/
def reactCdnUrl : String :=
  "https://esm.sh/react@19"

/-- Modelled from the spec: the CDN URL for a third-party bare specifier,
parameterized by package name. -/
def cdnUrlFor (name : String) : String :=
  "https://esm.sh/" ++ name

/-- The directory part of a path's character list (up to, excluding, the
last slash). -/
def dirOfChars (l : List Char) : List Char :=
  ((l.reverse.dropWhile (fun c => c ≠ '/')).drop 1).reverse

/-- The directory part of a path. -/
def dirOf (p : String) : String :=
  ⟨dirOfChars p.data⟩

/-- Resolve `.` and `..` segments left to right against an accumulator. -/
def resolveDotsAux : List (List Char) → List (List Char) → List (List Char)
  | acc, [] => acc.reverse
  | acc, s :: rest =>
    if s = ['.'] then resolveDotsAux acc rest
    else if s = ['.', '.'] then resolveDotsAux (acc.drop 1) rest
    else resolveDotsAux (s :: acc) rest

/-- Modelled from the spec: a relative specifier resolved against its
importer's directory. -/
def relTarget (dir spec : String) : String :=
  ⟨'/' :: joinSegs (resolveDotsAux [] (segsOf (dir.data ++ '/' :: spec.data)))⟩

/-- Modelled from the spec: classify one literal import specifier —
`@/`-aliased specifiers resolve against the root with extension probing
and fail over to a synthetic placeholder; the framework runtime name maps
to its pinned CDN URL; relative specifiers resolve against the importer's
directory with the same probing rule; any other bare name maps to a CDN
URL by package name. Classification is total: it never fails. -/
def classify (paths : List String) (importer specifier : String) : Resolution :=
  if startsWithStr "@/" specifier then
    match resolveLocalPath paths ("/" ++ ⟨specifier.data.drop 2⟩) with
    | some p => .localFile p
    | none => .placeholder specifier
  else if specifier = "react" then .cdnUrl reactCdnUrl
  else if startsWithStr "./" specifier || startsWithStr "../" specifier then
    match resolveLocalPath paths (relTarget (dirOf importer) specifier) with
    | some p => .localFile p
    | none => .placeholder specifier
  else .cdnUrl (cdnUrlFor specifier)

/-- The local file a specifier resolves to, if it resolves locally. -/
def localTargetOf (paths : List String) (importer specifier : String) : Option String :=
  match classify paths importer specifier with
  | .localFile p => some p
  | _ => none

/-- The local files reachable in one step from a file's import list. -/
def localImportTargets (paths : List String) (importer : String) (f : SrcFile) :
    List String :=
  f.imports.filterMap (fun sp => localTargetOf paths importer sp)

/-- The number of snapshot paths not yet visited. -/
def unvisitedCount (snap : Snapshot) (visited : List String) : Nat :=
  ((keys snap).filter (fun k => !(visited.contains k))).length

/-- Modelled from the spec: the import-graph walk — mark-on-first-visit,
each file visited at most once, cycles permitted. `visited` is the
ordered set of files already taken; the worklist front is skipped when
already visited or not a snapshot file, otherwise the file is marked and
its one-step local import targets are pushed. -/
def walkAux (snap : Snapshot) : List String → List String → List String
  | visited, [] => visited
  | visited, p :: rest =>
    if hv : visited.contains p then walkAux snap visited rest
    else
      match hf : lookupFile snap p with
      | none => walkAux snap visited rest
      | some f => walkAux snap (visited ++ [p]) (localImportTargets (keys snap) p f ++ rest)
termination_by visited ws => (unvisitedCount snap visited, ws.length)
decreasing_by
  · apply Prod.Lex.right
    simp
  · apply Prod.Lex.right
    simp
  · apply Prod.Lex.left
    have hmem : p ∈ keys snap := by
      unfold lookupFile at hf
      cases hfind : snap.find? (fun e => e.1 = p) with
      | none => rw [hfind] at hf; exact absurd hf (by simp)
      | some e =>
        have h1 := List.find?_some hfind
        have h2 := List.mem_of_find?_eq_some hfind
        have h3 : e.1 = p := by simpa using h1
        exact h3 ▸ List.mem_map_of_mem (fun e => e.1) h2
    have hnv : visited.contains p = false := by simpa using hv
    unfold unvisitedCount
    have hsplit : ∀ k : String,
        (!((visited ++ [p]).contains k)) = ((!(p == k)) && (!(visited.contains k))) := by
      intro k
      simp
      by_cases h1 : k ∈ visited <;> by_cases h2 : k = p
      · simp [h1, h2]
      · simp [h1, h2]
      · simp [h1, h2]
      · have h3 : ¬ p = k := fun h => h2 h.symm
        simp [h1, h2, h3]
    rw [List.filter_congr (fun k _ => hsplit k), ← List.filter_filter]
    have hstrict : ∀ (l : List String) (q : String → Bool), p ∈ l → q p = false →
        (l.filter q).length < l.length := by
      intro l q h1 h2
      induction l with
      | nil => simp at h1
      | cons a as ih =>
        rw [List.filter_cons]
        rcases List.mem_cons.mp h1 with h | h
        · subst h
          rw [h2]
          simp only [Bool.false_eq_true, if_false, List.length_cons]
          have := List.length_filter_le q as
          omega
        · split
          · simp only [List.length_cons]
            exact Nat.succ_lt_succ (ih h)
          · simp only [List.length_cons]
            exact Nat.lt_succ_of_lt (ih h)
    apply hstrict
    · have hpv : p ∉ visited := by simpa using hnv
      exact List.mem_filter.mpr ⟨hmem, by simpa using hpv⟩
    · simp

/-- Modelled from the spec: the dependency closure of the chosen entry. -/
def resolveClosure (snap : Snapshot) (entry : String) : List String :=
  walkAux snap [] [entry]

/-- The one-step local import targets of a snapshot file. -/
def localImportsOf (snap : Snapshot) (p : String) : List String :=
  match lookupFile snap p with
  | some f => localImportTargets (keys snap) p f
  | none => []

/-! ### SourceTransformer (modelled from the spec)

The spec fixes the transformer's interface — pure, total over
syntactically valid input, a structured location-carrying error
otherwise — but no concrete grammar; parse failure is modelled as an
unclosed JSX angle bracket at end of input, and the executable output of
a valid file is its text. -/

/-- Modelled from the spec: the structured per-file parse error,
build-fatal, carrying location. -/
structure SynErr where
  path : String
  line : Nat
  column : Nat
  message : String
deriving DecidableEq, Repr

/-- True iff a character list starts a JSX tag name. -/
def headIsTagStart : List Char → Bool
  | [] => false
  | d :: _ => d.isAlpha || d = '/'

/-- Modelled from the spec: scan for an unclosed JSX element, tracking
line and column; returns the position at which the input ends with an
open element, `none` when balanced. -/
def scanChars : List Char → Nat → Nat → Nat → Option (Nat × Nat)
  | [], line, col, depth => if depth = 0 then none else some (line, col)
  | c :: cs, line, col, depth =>
    if c = '\n' then scanChars cs (line + 1) 0 depth
    else if c = '<' ∧ headIsTagStart cs = true then scanChars cs line (col + 1) (depth + 1)
    else if c = '>' ∧ depth ≠ 0 then scanChars cs line (col + 1) (depth - 1)
    else scanChars cs line (col + 1) depth

/-- Modelled from the spec: the transformer — a pure function from path
and source text to either executable text or a structured error carrying
the file's path and the failure's line and column. -/
def transform (path : String) (src : String) : Except SynErr String :=
  match scanChars src.data 1 0 0 with
  | none => .ok src
  | some e => .error ⟨path, e.1, e.2, "Unexpected end of input in JSX element"⟩

/-- Run the transformer over every file of the closure, aborting on the
first structured error. -/
def transformAll (snap : Snapshot) : List String → Except SynErr (List (String × String))
  | [] => .ok []
  | p :: rest =>
    match lookupFile snap p with
    | none => transformAll snap rest
    | some f =>
      match transform p f.content with
      | .error e => .error e
      | .ok code =>
        match transformAll snap rest with
        | .error e => .error e
        | .ok ms => .ok ((p, code) :: ms)

/-! ### ImportMap and PreviewAssembler (modelled from the spec) -/

/-- Modelled from the spec: the URL a classified specifier loads from; a
placeholder resolves to a synthetic empty module. -/
def placeholderUrl : String :=
  "data:text/javascript,export default null"

/-- The URL of one resolution. -/
def urlOf : Resolution → String
  | .localFile p => "blob:" ++ p
  | .cdnUrl u => u
  | .placeholder _ => placeholderUrl

/-- Modelled from the spec: the ImportMap — the union of the rewrite
rules across all visited files, first classification wins. -/
def importMapOf (snap : Snapshot) (closure : List String) : List (String × Resolution) :=
  closure.foldl (fun acc p =>
    match lookupFile snap p with
    | none => acc
    | some f =>
      f.imports.foldl (fun acc2 sp =>
        if acc2.any (fun e => e.1 = sp) then acc2
        else acc2 ++ [(sp, classify (keys snap) p sp)]) acc) []

/-- One rendered import-map entry. -/
def entryString (sp url : String) : String :=
  "\x22" ++ sp ++ "\x22: \x22" ++ url ++ "\x22, "

/-- The import map rendered as text, entry by entry. -/
def renderImportMap : List (String × Resolution) → String
  | [] => ""
  | e :: rest => entryString e.1 (urlOf e.2) ++ renderImportMap rest

/-- The transformed module bodies rendered as loadable module scripts. -/
def renderModules : List (String × String) → String
  | [] => ""
  | m :: rest =>
    "<script type=\x22module\x22 data-path=\x22" ++ m.1 ++ "\x22>" ++ m.2 ++ "</script>" ++
      renderModules rest

/-- Document text up to the import map. -/
def htmlPre : String :=
  "<!DOCTYPE html><html><head><script type=\x22importmap\x22>\x7b \x22imports\x22: \x7b "

/-- Document text between the import map and the module scripts. -/
def htmlMid : String :=
  " \x7d \x7d</script></head><body>"

/-- Document text after the module scripts: mount point, boot script and
error boundary. -/
def htmlPost : String :=
  "<div id=\x22root\x22></div><script type=\x22module\x22>import(\x22entry\x22).catch(showError)</script></body></html>"

/-- Modelled from the spec: assemble the final self-contained document
from the import map and the transformed modules. -/
def assembleHTML (im : List (String × Resolution)) (mods : List (String × String)) :
    String :=
  htmlPre ++ renderImportMap im ++ htmlMid ++ renderModules mods ++ htmlPost

/-! ### The core build function (modelled from the spec) -/

/-- Modelled from the spec: the two build-fatal failures — a per-file
structured parse error with location, and the whole-project missing
entry point. -/
inductive BuildError where
  | synError (path : String) (line : Nat) (column : Nat) (message : String) : BuildError
  | noEntryPoint : BuildError
deriving DecidableEq, Repr

/-- Modelled from the spec: the successful build output. -/
structure BuildSuccess where
  html : String
deriving DecidableEq, Repr

/-- The entry path: the explicit override when given, otherwise the
selection rule over the snapshot's paths. -/
def buildEntry (snap : Snapshot) (override : Option String) : Option String :=
  match override with
  | some p => some p
  | none => chooseEntry (keys snap)

/-- Modelled from the spec: the core build — snapshot plus optional
entry-path override in, `\x7b html \x7d` or one of the two build-fatal
errors out; local resolution misses never fail the build, they degrade
to placeholder entries inside the successful document. -/
def build (snap : Snapshot) (override : Option String) : Except BuildError BuildSuccess :=
  match buildEntry snap override with
  | none => .error .noEntryPoint
  | some e =>
    match transformAll snap (resolveClosure snap e) with
    | .error er => .error (.synError er.path er.line er.column er.message)
    | .ok mods => .ok ⟨assembleHTML (importMapOf snap (resolveClosure snap e)) mods⟩

/-- The source text of the spec's example `/App.jsx`. -/
def missingContent : String :=
  "im" ++ "port X from \x27@/components/Missing\x27; export default () => <div/>"

/-- The spec's concrete example snapshot: one `/App.jsx` whose only
dependency is the `@/`-aliased specifier of a file that does not exist. -/
def missingSnap : Snapshot :=
  [("/App.jsx", ⟨missingContent, ["@/components/Missing"]⟩)]

/-! ### MessageInput (embedded from src/components/chat/MessageInput.tsx) -/

/-- The props of `MessageInput`; the two handler props are opaque
identities. -/
structure MessageInputProps where
  input : String
  handleInputChange : Nat
  handleSubmit : Nat
  isLoading : Bool
deriving DecidableEq, Repr

/-- A keyboard event as `handleKeyDown` observes it: the key, the shift
modifier, and the textarea's enclosing form (`e.currentTarget.form`),
which the DOM may report as null. -/
structure KeyEvt where
  key : String
  shiftKey : Bool
  form : Option Nat
deriving DecidableEq, Repr

/-- The externally visible effects `handleKeyDown` can perform. -/
inductive EvtAction where
  | preventDefault : EvtAction
  | requestSubmit (formId : Nat) : EvtAction
deriving DecidableEq, Repr

/-- Embedded from `handleKeyDown` (MessageInput.tsx lines 19–27): on
Enter without shift it calls `e.preventDefault()`, then submits via
`form.requestSubmit()` only when the form is non-null; any other key
event does nothing. -/
def handleKeyDown (e : KeyEvt) : List EvtAction :=
  if e.key = "Enter" ∧ e.shiftKey = false then
    match e.form with
    | some f => [.preventDefault, .requestSubmit f]
    | none => [.preventDefault]
  else []

/-- JS `String.prototype.trim` on the character list: drop whitespace
from both ends (the ASCII whitespace subset suffices here). -/
def jsTrim (s : String) : String :=
  ⟨((s.data.dropWhile Char.isWhitespace).reverse.dropWhile Char.isWhitespace).reverse⟩

/-- Embedded from MessageInput.tsx line 43: the submit button's
`disabled=\x7bisLoading || !input.trim()\x7d` (a trimmed-empty string is
falsy in JS). -/
def submitDisabled (props : MessageInputProps) : Bool :=
  props.isLoading || (jsTrim props.input == "")

/-- An attribute value of the rendered element tree. -/
inductive AttrVal where
  | s (v : String) : AttrVal
  | b (v : Bool) : AttrVal
  | n (v : Nat) : AttrVal
deriving DecidableEq, Repr

/-- A node of the rendered element tree. -/
inductive VNode where
  | text (t : String) : VNode
  | el (tag : String) (attrs : List (String × AttrVal)) (children : List VNode) : VNode

/-- Embedded from MessageInput.tsx lines 29–50: the element tree the
component renders — a form containing a div containing the controlled
textarea and the submit button with its Send icon. -/
def renderMessageInput (props : MessageInputProps) : VNode :=
  .el "form"
    [("onSubmit", .n props.handleSubmit),
     ("className", .s "relative p-4 bg-card border-t border-border")]
    [.el "div" [("className", .s "relative max-w-4xl mx-auto")]
      [.el "textarea"
        [("value", .s props.input),
         ("onChange", .n props.handleInputChange),
         ("onKeyDown", .s "handleKeyDown"),
         ("placeholder", .s "Describe the React component you want to create..."),
         ("disabled", .b props.isLoading),
         ("className", .s "w-full min-h-[80px] max-h-[200px] pl-4 pr-14 py-3.5 rounded-xl border border-border bg-muted/30 text-foreground resize-none focus:outline-none focus:ring-2 focus:ring-ring/20 focus:border-ring focus:bg-background transition-all placeholder:text-muted-foreground text-[15px] font-normal shadow-sm"),
         ("rows", .n 3)] [],
       .el "button"
        [("type", .s "submit"),
         ("disabled", .b (submitDisabled props)),
         ("className", .s "absolute right-3 bottom-3 p-2.5 rounded-lg transition-all hover:bg-accent disabled:opacity-40 disabled:cursor-not-allowed disabled:hover:bg-transparent group")]
        [.el "Send"
          [("className", .s ("h-4 w-4 transition-transform group-hover:translate-x-0.5 group-hover:-translate-y-0.5 " ++
            (if submitDisabled props then "text-muted-foreground" else "text-primary")))] []]]]

/-- The i-th child of an element node. -/
def childAt (v : VNode) (i : Nat) : Option VNode :=
  match v with
  | .el _ _ cs => cs.get? i
  | .text _ => none

/-- An attribute of an element node, by key. -/
def attrOf (v : VNode) (k : String) : Option AttrVal :=
  match v with
  | .el _ attrs _ => (attrs.find? (fun a => a.1 = k)).map (fun a => a.2)
  | .text _ => none

/-- The rendered textarea: first child of the form's div. -/
def textareaOf (v : VNode) : Option VNode :=
  (childAt v 0).bind (fun d => childAt d 0)

/-- The rendered submit button: second child of the form's div. -/
def buttonOf (v : VNode) : Option VNode :=
  (childAt v 0).bind (fun d => childAt d 1)

/-- An attribute of an optional element, by key. -/
def attrInOpt (o : Option VNode) (k : String) : Option AttrVal :=
  o.bind (fun v => attrOf v k)

/-! ## Theorems -/

/-! ### Path normalization -/

theorem segsOf_nil : segsOf [] = [] := by
  simp [segsOf]

theorem segsOf_slash_cons (cs : List Char) : segsOf ('/' :: cs) = segsOf cs := by
  simp [segsOf]

theorem takeWhile_of_all_ne (s t : List Char) (h : ∀ c ∈ s, c ≠ '/') :
    (s ++ '/' :: t).takeWhile (fun d => d ≠ '/') = s := by
  induction s with
  | nil => simp
  | cons c s ih =>
    have hc : c ≠ '/' := h c (by simp)
    have hs : ∀ d ∈ s, d ≠ '/' := fun d hd => h d (by simp [hd])
    rw [List.cons_append, List.takeWhile_cons, if_pos (by simp [hc]), ih hs]

theorem dropWhile_of_all_ne (s t : List Char) (h : ∀ c ∈ s, c ≠ '/') :
    (s ++ '/' :: t).dropWhile (fun d => d ≠ '/') = '/' :: t := by
  induction s with
  | nil => simp
  | cons c s ih =>
    have hc : c ≠ '/' := h c (by simp)
    have hs : ∀ d ∈ s, d ≠ '/' := fun d hd => h d (by simp [hd])
    rw [List.cons_append, List.dropWhile_cons, if_pos (by simp [hc]), ih hs]

theorem takeWhile_of_all_ne_nil (s : List Char) (h : ∀ c ∈ s, c ≠ '/') :
    s.takeWhile (fun d => d ≠ '/') = s := by
  induction s with
  | nil => simp
  | cons c s ih =>
    have hc : c ≠ '/' := h c (by simp)
    have hs : ∀ d ∈ s, d ≠ '/' := fun d hd => h d (by simp [hd])
    rw [List.takeWhile_cons, if_pos (by simp [hc]), ih hs]

theorem dropWhile_of_all_ne_nil (s : List Char) (h : ∀ c ∈ s, c ≠ '/') :
    s.dropWhile (fun d => d ≠ '/') = [] := by
  induction s with
  | nil => simp
  | cons c s ih =>
    have hc : c ≠ '/' := h c (by simp)
    have hs : ∀ d ∈ s, d ≠ '/' := fun d hd => h d (by simp [hd])
    rw [List.dropWhile_cons, if_pos (by simp [hc]), ih hs]

theorem segsOf_append_slash (s t : List Char) (hne : s ≠ [])
    (h : ∀ c ∈ s, c ≠ '/') :
    segsOf (s ++ '/' :: t) = s :: segsOf t := by
  cases s with
  | nil => exact absurd rfl hne
  | cons c s =>
    have hc : c ≠ '/' := h c (by simp)
    have hs : ∀ d ∈ s, d ≠ '/' := fun d hd => h d (by simp [hd])
    simp only [List.cons_append]
    rw [segsOf]
    simp only [hc, if_neg, if_false]
    rw [takeWhile_of_all_ne s t hs, dropWhile_of_all_ne s t hs, segsOf_slash_cons]

theorem segsOf_of_all_ne (s : List Char) (hne : s ≠ [])
    (h : ∀ c ∈ s, c ≠ '/') :
    segsOf s = [s] := by
  cases s with
  | nil => exact absurd rfl hne
  | cons c s =>
    have hc : c ≠ '/' := h c (by simp)
    have hs : ∀ d ∈ s, d ≠ '/' := fun d hd => h d (by simp [hd])
    rw [segsOf]
    simp only [hc, if_neg, if_false]
    rw [takeWhile_of_all_ne_nil s hs, dropWhile_of_all_ne_nil s hs, segsOf_nil]

/-- Every segment produced by `segsOf` is nonempty and slash-free. -/
theorem segsOf_sound (l : List Char) :
    ∀ s ∈ segsOf l, s ≠ [] ∧ ∀ c ∈ s, c ≠ '/' := by
  induction l using segsOf.induct with
  | case1 => simp [segsOf]
  | case2 cs ih =>
    rw [segsOf_slash_cons]
    exact ih
  | case3 c cs hc ih =>
    rw [segsOf]
    simp only [hc, if_neg, if_false]
    intro s hs
    rcases List.mem_cons.mp hs with h1 | h2
    · subst h1
      refine ⟨by simp, ?_⟩
      intro d hd
      rcases List.mem_cons.mp hd with h3 | h4
      · subst h3; exact hc
      · have := List.mem_takeWhile_imp h4
        simpa using this
    · exact ih s h2

/-- Rejoining the segments of a slash-free nonempty segment list and
re-splitting recovers the list. -/
theorem segsOf_joinSegs (segs : List (List Char))
    (h : ∀ s ∈ segs, s ≠ [] ∧ ∀ c ∈ s, c ≠ '/') :
    segsOf (joinSegs segs) = segs := by
  induction segs with
  | nil => simp [joinSegs, segsOf]
  | cons s rest ih =>
    cases rest with
    | nil =>
      have hs := h s (by simp)
      rw [joinSegs, segsOf_of_all_ne s hs.1 hs.2]
    | cons t rest2 =>
      have hs := h s (by simp)
      rw [joinSegs, segsOf_append_slash s _ hs.1 hs.2]
      rw [ih (fun u hu => h u (by simp [List.mem_cons] at hu ⊢; tauto))]

theorem normalizeChars_idem (l : List Char) :
    normalizeChars (normalizeChars l) = normalizeChars l := by
  unfold normalizeChars
  rw [segsOf_slash_cons, segsOf_joinSegs (segsOf l) (segsOf_sound l)]

/-- C6: The path normalization function is idempotent: for every string
`p`, `normalize (normalize p) = normalize p`, where `normalize` rewrites
a path to start with exactly one `/`, collapses internal `//`, and leaves
no trailing `/` except for the root path itself. -/
theorem normalize_idempotent (p : String) :
    normalize (normalize p) = normalize p := by
  unfold normalize
  exact congrArg String.mk (normalizeChars_idem p.data)

/-! ### VirtualFileStore rename -/

theorem rename_conflict (s : Store) (oldPath newPath : String)
    (h : existsPath s newPath = true) :
    rename s oldPath newPath = .error .conflict := by
  simp [rename, h]

theorem rename_ok_cases (s : Store) (oldPath newPath : String) (s2 : Store)
    (h : rename s oldPath newPath = .ok s2) :
    s2 = s.map (fun e => (rewritePath oldPath newPath e.1, e.2)) := by
  unfold rename at h
  by_cases h1 : existsPath s newPath
  · simp [h1] at h
  · by_cases h2 : existsPath s oldPath
    · simp [h1, h2] at h
      exact h.symm
    · simp [h1, h2] at h

theorem rewritePath_self (oldPath newPath : String) :
    rewritePath oldPath newPath oldPath = newPath := by
  simp [rewritePath]

theorem not_self_descendant (oldPath : String)
    (h : (oldPath.data ++ ['/']).isPrefixOf oldPath.data = true) : False := by
  have hp := List.isPrefixOf_iff_prefix.mp h
  have := hp.length_le
  simp at this

theorem rewritePath_descendant (oldPath newPath p : String)
    (h : (oldPath.data ++ ['/']).isPrefixOf p.data = true) :
    rewritePath oldPath newPath p = ⟨newPath.data ++ p.data.drop oldPath.data.length⟩ := by
  have hne : p ≠ oldPath := by
    intro he
    subst he
    exact not_self_descendant p h
  simp [rewritePath, hne, h]

/-- C7: `rename(oldPath, newPath)` fails with `Conflict` when `newPath`
already exists; when it succeeds, the renamed file's node (content
included) is found unchanged at `newPath`, and every descendant of
`oldPath` is found, node unchanged, at its path with the `oldPath`
prefix rewritten to `newPath`. -/
theorem rename_spec (s : Store) (oldPath newPath : String) :
    (existsPath s newPath = true → rename s oldPath newPath = .error .conflict) ∧
    (∀ s2 : Store, rename s oldPath newPath = .ok s2 →
      (∀ n : FileNode, (oldPath, n) ∈ s → (newPath, n) ∈ s2) ∧
      (∀ (p : String) (n : FileNode), (p, n) ∈ s →
        (oldPath.data ++ ['/']).isPrefixOf p.data = true →
        ((⟨newPath.data ++ p.data.drop oldPath.data.length⟩ : String), n) ∈ s2)) := by
  constructor
  · exact rename_conflict s oldPath newPath
  · intro s2 h
    have hs2 := rename_ok_cases s oldPath newPath s2 h
    subst hs2
    constructor
    · intro n hn
      have := List.mem_map_of_mem (fun e => (rewritePath oldPath newPath e.1, e.2)) hn
      simpa [rewritePath_self] using this
    · intro p n hn hp
      have := List.mem_map_of_mem (fun e => (rewritePath oldPath newPath e.1, e.2)) hn
      simpa [rewritePath_descendant oldPath newPath p hp] using this

/-- Witness for `rename_spec`: renaming `/a` to `/c` in a concrete store
moves the descendant file `/a/x.txt`, content intact, to `/c/x.txt`. -/
theorem rename_spec_witness :
    ((⟨("/c" : String).data ++
        ("/a/x.txt" : String).data.drop ("/a" : String).data.length⟩ : String),
      (⟨.file, "hi"⟩ : FileNode)) ∈
      ([("/c", ⟨.directory, ""⟩), ("/c/x.txt", ⟨.file, "hi"⟩),
        ("/b.txt", ⟨.file, "z"⟩)] : Store) := by
  exact ((rename_spec
      [("/a", ⟨.directory, ""⟩), ("/a/x.txt", ⟨.file, "hi"⟩), ("/b.txt", ⟨.file, "z"⟩)]
      "/a" "/c").2
    [("/c", ⟨.directory, ""⟩), ("/c/x.txt", ⟨.file, "hi"⟩), ("/b.txt", ⟨.file, "z"⟩)]
    (by rfl)).2 "/a/x.txt" ⟨.file, "hi"⟩ (by decide) (by decide)

/-! ### The resolver walk -/

theorem walkAux_nil (snap : Snapshot) (visited : List String) :
    walkAux snap visited [] = visited := by
  rw [walkAux]

theorem walkAux_cons_visited (snap : Snapshot) (visited : List String) (p : String)
    (rest : List String) (h : visited.contains p = true) :
    walkAux snap visited (p :: rest) = walkAux snap visited rest := by
  rw [walkAux, dif_pos h]

theorem walkAux_cons_none (snap : Snapshot) (visited : List String) (p : String)
    (rest : List String) (h : visited.contains p = false) (h2 : lookupFile snap p = none) :
    walkAux snap visited (p :: rest) = walkAux snap visited rest := by
  rw [walkAux, dif_neg (by simpa using h)]
  split
  next => rfl
  next f hf => rw [h2] at hf; exact absurd hf (by simp)

theorem walkAux_cons_some (snap : Snapshot) (visited : List String) (p : String)
    (rest : List String) (f : SrcFile)
    (h : visited.contains p = false) (h2 : lookupFile snap p = some f) :
    walkAux snap visited (p :: rest) =
      walkAux snap (visited ++ [p]) (localImportTargets (keys snap) p f ++ rest) := by
  rw [walkAux, dif_neg (by simpa using h)]
  split
  next hf => rw [h2] at hf; exact absurd hf (by simp)
  next f2 hf =>
    rw [h2] at hf
    have : f2 = f := by injection hf with h3; exact h3.symm
    rw [this]

theorem walkAux_nodup (snap : Snapshot) (visited ws : List String)
    (h : visited.Nodup) : (walkAux snap visited ws).Nodup := by
  induction visited, ws using walkAux.induct snap with
  | case1 visited => rw [walkAux_nil]; exact h
  | case2 visited p rest hv ih => rw [walkAux_cons_visited snap visited p rest hv]; exact ih h
  | case3 visited p rest hv hf ih =>
    rw [walkAux_cons_none snap visited p rest (by simpa using hv) hf]
    exact ih h
  | case4 visited p rest hv f hf ih =>
    rw [walkAux_cons_some snap visited p rest f (by simpa using hv) hf]
    apply ih
    have hpv : p ∉ visited := by
      intro hm
      exact hv (by simpa using hm)
    simp [List.nodup_append, h, hpv]

theorem lookupFile_of_mem_keys (snap : Snapshot) (q : String) (h : q ∈ keys snap) :
    ∃ f, lookupFile snap q = some f := by
  have : ∃ e ∈ snap, e.1 = q := by
    unfold keys at h
    rcases List.mem_map.mp h with ⟨e, he, hq⟩
    exact ⟨e, he, hq⟩
  rcases this with ⟨e, he, hq⟩
  have hsome : (snap.find? (fun e => e.1 = q)).isSome := by
    rw [List.find?_isSome]
    exact ⟨e, he, by simp [hq]⟩
  unfold lookupFile
  cases hfind : snap.find? (fun e => e.1 = q) with
  | none => rw [hfind] at hsome; simp at hsome
  | some e2 => exact ⟨e2.2, rfl⟩

theorem walkAux_visited_subset (snap : Snapshot) (visited ws : List String) :
    visited ⊆ walkAux snap visited ws := by
  induction visited, ws using walkAux.induct snap with
  | case1 visited => rw [walkAux_nil]; exact List.Subset.refl visited
  | case2 visited p rest hv ih => rw [walkAux_cons_visited snap visited p rest hv]; exact ih
  | case3 visited p rest hv hf ih =>
    rw [walkAux_cons_none snap visited p rest (by simpa using hv) hf]
    exact ih
  | case4 visited p rest hv f hf ih =>
    rw [walkAux_cons_some snap visited p rest f (by simpa using hv) hf]
    exact fun x hx => ih (List.mem_append.mpr (Or.inl hx))

theorem walkAux_ws_mem (snap : Snapshot) (visited ws : List String) (q : String)
    (hq : q ∈ ws) (hk : q ∈ keys snap) : q ∈ walkAux snap visited ws := by
  induction visited, ws using walkAux.induct snap with
  | case1 visited => simp at hq
  | case2 visited p rest hv ih =>
    rw [walkAux_cons_visited snap visited p rest hv]
    rcases List.mem_cons.mp hq with h | h
    · subst h
      exact walkAux_visited_subset snap visited rest (by simpa using hv)
    · exact ih h
  | case3 visited p rest hv hf ih =>
    rw [walkAux_cons_none snap visited p rest (by simpa using hv) hf]
    rcases List.mem_cons.mp hq with h | h
    · subst h
      rcases lookupFile_of_mem_keys snap q hk with ⟨f, hf2⟩
      rw [hf] at hf2
      cases hf2
    · exact ih h
  | case4 visited p rest hv f hf ih =>
    rw [walkAux_cons_some snap visited p rest f (by simpa using hv) hf]
    rcases List.mem_cons.mp hq with h | h
    · subst h
      exact walkAux_visited_subset snap (visited ++ [q]) _ (by simp)
    · exact ih (List.mem_append.mpr (Or.inr h))

theorem walkAux_closed (snap : Snapshot) (visited ws : List String)
    (hinv : ∀ pp ∈ visited, ∀ q ∈ localImportsOf snap pp, q ∈ keys snap →
      q ∈ visited ∨ q ∈ ws) :
    ∀ pp ∈ walkAux snap visited ws, ∀ q ∈ localImportsOf snap pp, q ∈ keys snap →
      q ∈ walkAux snap visited ws := by
  induction visited, ws using walkAux.induct snap with
  | case1 visited =>
    rw [walkAux_nil]
    intro pp hpp q hq hk
    rcases hinv pp hpp q hq hk with h | h
    · exact h
    · simp at h
  | case2 visited p rest hv ih =>
    rw [walkAux_cons_visited snap visited p rest hv]
    apply ih
    intro pp hpp q hq hk
    rcases hinv pp hpp q hq hk with h | h
    · exact Or.inl h
    · rcases List.mem_cons.mp h with h2 | h2
      · subst h2
        exact Or.inl (by simpa using hv)
      · exact Or.inr h2
  | case3 visited p rest hv hf ih =>
    rw [walkAux_cons_none snap visited p rest (by simpa using hv) hf]
    apply ih
    intro pp hpp q hq hk
    rcases hinv pp hpp q hq hk with h | h
    · exact Or.inl h
    · rcases List.mem_cons.mp h with h2 | h2
      · subst h2
        rcases lookupFile_of_mem_keys snap q hk with ⟨f, hf2⟩
        rw [hf] at hf2
        cases hf2
      · exact Or.inr h2
  | case4 visited p rest hv f hf ih =>
    rw [walkAux_cons_some snap visited p rest f (by simpa using hv) hf]
    apply ih
    intro pp hpp q hq hk
    rcases List.mem_append.mp hpp with h | h
    · rcases hinv pp h q hq hk with h2 | h2
      · exact Or.inl (List.mem_append.mpr (Or.inl h2))
      · rcases List.mem_cons.mp h2 with h3 | h3
        · subst h3
          exact Or.inl (by simp)
        · exact Or.inr (List.mem_append.mpr (Or.inr h3))
    · have hp : pp = p := by simpa using h
      subst hp
      have : localImportsOf snap pp = localImportTargets (keys snap) pp f := by
        simp [localImportsOf, hf]
      rw [this] at hq
      exact Or.inr (List.mem_append.mpr (Or.inl hq))

/-- C3: For every snapshot whose import graph contains a cycle — in
particular `A` imports `B` and `B` imports `A` — the graph walk
terminates (it is a total function; each file is visited at most once,
marked on first visit, so the result has no duplicates), the cycle is
not an error, and each of the two cyclically-importing modules appears
exactly once in the produced set. -/
theorem resolver_cycle_each_once (snap : Snapshot) (A B : String)
    (hA : A ∈ keys snap) (hB : B ∈ keys snap)
    (hAB : B ∈ localImportsOf snap A) (hBA : A ∈ localImportsOf snap B) :
    (resolveClosure snap A).Nodup ∧
    (resolveClosure snap A).count A = 1 ∧ (resolveClosure snap A).count B = 1 := by
  have hnd := walkAux_nodup snap [] [A] (by simp)
  have hmemA : A ∈ resolveClosure snap A := walkAux_ws_mem snap [] [A] A (by simp) hA
  have hclosed := walkAux_closed snap [] [A] (by simp)
  have hmemB : B ∈ resolveClosure snap A := hclosed A hmemA B hAB hB
  exact ⟨hnd, List.count_eq_one_of_mem hnd hmemA, List.count_eq_one_of_mem hnd hmemB⟩

/-- Witness for `resolver_cycle_each_once`: the two-file snapshot in
which `/App.jsx` and `/B.jsx` import each other through the `@/` alias. -/
theorem resolver_cycle_each_once_witness :
    (resolveClosure [("/App.jsx", ⟨"", ["@/B"]⟩), ("/B.jsx", ⟨"", ["@/App"]⟩)]
      "/App.jsx").Nodup ∧
    (resolveClosure [("/App.jsx", ⟨"", ["@/B"]⟩), ("/B.jsx", ⟨"", ["@/App"]⟩)]
      "/App.jsx").count "/App.jsx" = 1 ∧
    (resolveClosure [("/App.jsx", ⟨"", ["@/B"]⟩), ("/B.jsx", ⟨"", ["@/App"]⟩)]
      "/App.jsx").count "/B.jsx" = 1 := by
  exact resolver_cycle_each_once
    [("/App.jsx", ⟨"", ["@/B"]⟩), ("/B.jsx", ⟨"", ["@/App"]⟩)] "/App.jsx" "/B.jsx"
    (by decide) (by decide) (by decide) (by decide)

/-! ### Entry-point selection -/

theorem foldl_min_spec (rest : List String) (a : String) :
    (rest.foldl (fun x b => if b < x then b else x) a) ∈ a :: rest ∧
    (rest.foldl (fun x b => if b < x then b else x) a) ≤ a ∧
    ∀ r ∈ rest, (rest.foldl (fun x b => if b < x then b else x) a) ≤ r := by
  induction rest generalizing a with
  | nil => simp
  | cons b bs ih =>
    rw [List.foldl_cons]
    by_cases hb : b < a
    · rw [if_pos hb]
      rcases ih b with ⟨h1, h2, h3⟩
      refine ⟨List.mem_cons.mpr (Or.inr h1), le_trans h2 (le_of_lt hb), ?_⟩
      intro r hr
      rcases List.mem_cons.mp hr with h | h
      · subst h
        exact h2
      · exact h3 r h
    · rw [if_neg hb]
      rcases ih a with ⟨h1, h2, h3⟩
      refine ⟨?_, h2, ?_⟩
      · rcases List.mem_cons.mp h1 with h | h
        · exact List.mem_cons.mpr (Or.inl h)
        · exact List.mem_cons.mpr (Or.inr (List.mem_cons.mpr (Or.inr h)))
      · intro r hr
        rcases List.mem_cons.mp hr with h | h
        · subst h
          exact le_trans h2 (le_of_not_lt hb)
        · exact h3 r h

theorem lexFirst_min (l : List String) (q : String) (h : lexFirst l = some q) :
    q ∈ l ∧ ∀ r ∈ l, q ≤ r := by
  cases l with
  | nil => simp [lexFirst] at h
  | cons p rest =>
    have hq : rest.foldl (fun x b => if b < x then b else x) p = q := by
      simpa [lexFirst] using h
    rcases foldl_min_spec rest p with ⟨h1, h2, h3⟩
    rw [hq] at h1 h2 h3
    refine ⟨h1, ?_⟩
    intro r hr
    rcases List.mem_cons.mp hr with h4 | h4
    · subst h4
      exact h2
    · exact h3 r h4

theorem chooseEntry_none_of_no_component (paths : List String)
    (h : ∀ p ∈ paths, hasComponentExt p = false) :
    chooseEntry paths = none := by
  have hcontains : ∀ sp : String, hasComponentExt sp = true →
      paths.contains sp = false := by
    intro sp hsp
    by_cases hc : paths.contains sp = true
    · have hm : sp ∈ paths := by simpa using hc
      rw [h sp hm] at hsp
      cases hsp
    · simpa using hc
  have h1 := hcontains "/App.jsx" (by decide)
  have h2 := hcontains "/App.tsx" (by decide)
  have h3 := hcontains "/index.jsx" (by decide)
  have h4 := hcontains "/index.tsx" (by decide)
  have hfil : paths.filter hasComponentExt = [] := by
    rw [List.filter_eq_nil_iff]
    intro p hp
    simp [h p hp]
  rw [chooseEntry, h1, h2, h3, h4]
  simp only [Bool.false_eq_true, if_false]
  rw [hfil]
  rfl

/-- C2: entry-point selection prefers `/App.jsx` then `/App.tsx`, else
`/index.jsx` then `/index.tsx`, else the lexicographically-first file
with a `.jsx`/`.tsx` extension; and a snapshot containing no `.jsx`/
`.tsx` file at all builds to `NoEntryPoint`. -/
theorem entry_selection_spec (paths : List String) (snap : Snapshot) :
    (paths.contains "/App.jsx" = true → chooseEntry paths = some "/App.jsx") ∧
    (paths.contains "/App.jsx" = false → paths.contains "/App.tsx" = true →
      chooseEntry paths = some "/App.tsx") ∧
    (paths.contains "/App.jsx" = false → paths.contains "/App.tsx" = false →
      paths.contains "/index.jsx" = true → chooseEntry paths = some "/index.jsx") ∧
    (paths.contains "/App.jsx" = false → paths.contains "/App.tsx" = false →
      paths.contains "/index.jsx" = false → paths.contains "/index.tsx" = true →
      chooseEntry paths = some "/index.tsx") ∧
    (paths.contains "/App.jsx" = false → paths.contains "/App.tsx" = false →
      paths.contains "/index.jsx" = false → paths.contains "/index.tsx" = false →
      ∀ p0 ∈ paths, hasComponentExt p0 = true →
        ∃ q, chooseEntry paths = some q ∧ q ∈ paths ∧ hasComponentExt q = true ∧
          ∀ r ∈ paths, hasComponentExt r = true → q ≤ r) ∧
    ((∀ p ∈ keys snap, hasComponentExt p = false) →
      build snap none = .error .noEntryPoint) := by
  refine ⟨?_, ?_, ?_, ?_, ?_, ?_⟩
  · intro h1
    rw [chooseEntry, h1]
    rfl
  · intro h1 h2
    rw [chooseEntry, h1, h2]
    rfl
  · intro h1 h2 h3
    rw [chooseEntry, h1, h2, h3]
    rfl
  · intro h1 h2 h3 h4
    rw [chooseEntry, h1, h2, h3, h4]
    rfl
  · intro h1 h2 h3 h4 p0 hp0 hext
    have hmemf : p0 ∈ paths.filter hasComponentExt := List.mem_filter.mpr ⟨hp0, hext⟩
    have hne : paths.filter hasComponentExt ≠ [] := by
      intro he
      rw [he] at hmemf
      simp at hmemf
    have hsome : ∃ q, lexFirst (paths.filter hasComponentExt) = some q := by
      cases hl : paths.filter hasComponentExt with
      | nil => exact absurd hl hne
      | cons a rest => exact ⟨_, rfl⟩
    rcases hsome with ⟨q, hq⟩
    rcases lexFirst_min _ q hq with ⟨hqm, hqle⟩
    refine ⟨q, ?_, (List.mem_filter.mp hqm).1, (List.mem_filter.mp hqm).2, ?_⟩
    · rw [chooseEntry, h1, h2, h3, h4]
      simpa using hq
    · intro r hr hrext
      exact hqle r (List.mem_filter.mpr ⟨hr, hrext⟩)
  · intro hnone
    have := chooseEntry_none_of_no_component (keys snap) hnone
    rw [build, buildEntry]
    simp only [this]

/-- Witness for `entry_selection_spec`: `/App.jsx` wins when present,
and a CSS-only snapshot builds to `NoEntryPoint`. -/
theorem entry_selection_spec_witness :
    chooseEntry ["/a.jsx", "/App.jsx"] = some "/App.jsx" ∧
    build [("/x.css", ⟨"", []⟩)] none = .error .noEntryPoint := by
  constructor
  · exact (entry_selection_spec ["/a.jsx", "/App.jsx"] []).1 (by decide)
  · exact (entry_selection_spec [] [("/x.css", ⟨"", []⟩)]).2.2.2.2.2 (by decide)

/-! ### The build: shape and degradation -/

theorem build_ok_of (snap : Snapshot) (override : Option String) (e : String)
    (mods : List (String × String))
    (hE : buildEntry snap override = some e)
    (hT : transformAll snap (resolveClosure snap e) = .ok mods) :
    build snap override =
      .ok ⟨assembleHTML (importMapOf snap (resolveClosure snap e)) mods⟩ := by
  simp [build, hE, hT]

theorem walkAux_eval_single (snap : Snapshot) (p : String) (f : SrcFile)
    (hlook : lookupFile snap p = some f)
    (hno : localImportTargets (keys snap) p f = []) :
    resolveClosure snap p = [p] := by
  rw [resolveClosure, walkAux_cons_some snap [] p [] f rfl hlook, hno]
  simp only [List.nil_append, List.append_nil]
  exact walkAux_nil snap [p]

theorem entry_infix (im : List (String × Resolution)) (sp : String) (res : Resolution)
    (h : (sp, res) ∈ im) :
    (entryString sp (urlOf res)).data <:+: (renderImportMap im).data := by
  induction im with
  | nil => simp at h
  | cons e rest ih =>
    rw [renderImportMap, String.data_append]
    rcases List.mem_cons.mp h with h1 | h1
    · rw [← h1]
      exact (List.prefix_append _ _).isInfix
    · exact (ih h1).trans (List.suffix_append _ _).isInfix

theorem infix_append_right (x a b : List Char) (h : x <:+: b) : x <:+: a ++ b :=
  h.trans (List.suffix_append a b).isInfix

theorem infix_append_left (x a b : List Char) (h : x <:+: a) : x <:+: a ++ b :=
  h.trans (List.prefix_append a b).isInfix

theorem entry_infix_html (im : List (String × Resolution))
    (mods : List (String × String)) (sp : String) (res : Resolution)
    (h : (sp, res) ∈ im) :
    (entryString sp (urlOf res)).data <:+: (assembleHTML im mods).data := by
  have h1 := entry_infix im sp res h
  rw [assembleHTML, String.data_append, String.data_append, String.data_append,
    String.data_append]
  exact infix_append_left _ _ _ (infix_append_left _ _ _
    (infix_append_left _ _ _ (infix_append_right _ _ _ h1)))

/-- C1: for every snapshot and optional entry-path override, the build
result takes exactly one of the three interface shapes — a success
carrying `html`, a location-carrying structured parse error, or
`NoEntryPoint`; given an entry and parse-clean sources the build
succeeds regardless of local resolution misses, and every placeholder
entry of the import map appears textually inside the successful
document. -/
theorem build_result_shape (snap : Snapshot) (override : Option String) :
    ((∃ r, build snap override = .ok r) ∨
      (∃ p l c m, build snap override = .error (.synError p l c m)) ∨
      build snap override = .error .noEntryPoint) ∧
    (∀ (e : String) (mods : List (String × String)),
      buildEntry snap override = some e →
      transformAll snap (resolveClosure snap e) = .ok mods →
      build snap override =
        .ok ⟨assembleHTML (importMapOf snap (resolveClosure snap e)) mods⟩) ∧
    (∀ (e : String) (mods : List (String × String)) (sp : String),
      buildEntry snap override = some e →
      transformAll snap (resolveClosure snap e) = .ok mods →
      (sp, Resolution.placeholder sp) ∈ importMapOf snap (resolveClosure snap e) →
      ∃ r, build snap override = .ok r ∧
        (entryString sp placeholderUrl).data <:+: r.html.data) := by
  refine ⟨?_, ?_, ?_⟩
  · cases hE : buildEntry snap override with
    | none =>
      right
      right
      simp [build, hE]
    | some e =>
      cases hT : transformAll snap (resolveClosure snap e) with
      | error er =>
        right
        left
        exact ⟨er.path, er.line, er.column, er.message, by simp [build, hE, hT]⟩
      | ok mods =>
        left
        exact ⟨_, build_ok_of snap override e mods hE hT⟩
  · intro e mods hE hT
    exact build_ok_of snap override e mods hE hT
  · intro e mods sp hE hT hmem
    refine ⟨⟨assembleHTML (importMapOf snap (resolveClosure snap e)) mods⟩,
      build_ok_of snap override e mods hE hT, ?_⟩
    have := entry_infix_html (importMapOf snap (resolveClosure snap e)) mods sp
      (Resolution.placeholder sp) hmem
    simpa [urlOf] using this

/-- Witness for `build_result_shape`: a one-file snapshot builds to the
assembled document. -/
theorem build_result_shape_witness :
    build [("/App.jsx", ⟨"export default 1", []⟩)] none =
      .ok ⟨assembleHTML
        (importMapOf [("/App.jsx", ⟨"export default 1", []⟩)]
          (resolveClosure [("/App.jsx", ⟨"export default 1", []⟩)] "/App.jsx"))
        [("/App.jsx", "export default 1")]⟩ := by
  have hc : resolveClosure [("/App.jsx", ⟨"export default 1", []⟩)] "/App.jsx" =
      ["/App.jsx"] :=
    walkAux_eval_single _ "/App.jsx" ⟨"export default 1", []⟩ rfl (by decide)
  exact (build_result_shape [("/App.jsx", ⟨"export default 1", []⟩)] none).2.1
    "/App.jsx" [("/App.jsx", "export default 1")] rfl (by rw [hc]; exact rfl)

/-! ### Alias misses degrade to placeholders -/

/-- C4: a `@/`-aliased import whose target exists under none of the
probed extensions classifies as a synthetic placeholder (never a
build-fatal error); on the spec's example snapshot the build succeeds
and the import map holds the placeholder entry for
`@/components/Missing`. -/
theorem alias_miss_placeholder (paths : List String) (importer sp : String)
    (hsp : startsWithStr "@/" sp = true)
    (hmiss : resolveLocalPath paths ("/" ++ ⟨sp.data.drop 2⟩) = none) :
    classify paths importer sp = .placeholder sp ∧
    (∃ r, build missingSnap none = .ok r) ∧
    ("@/components/Missing", Resolution.placeholder "@/components/Missing") ∈
      importMapOf missingSnap (resolveClosure missingSnap "/App.jsx") := by
  have hc : resolveClosure missingSnap "/App.jsx" = ["/App.jsx"] :=
    walkAux_eval_single missingSnap "/App.jsx"
      ⟨missingContent, ["@/components/Missing"]⟩ rfl (by decide)
  refine ⟨?_, ?_, ?_⟩
  · simp [classify, hsp, hmiss]
  · exact ⟨_, build_ok_of missingSnap none "/App.jsx"
      [("/App.jsx", missingContent)]
      rfl (by rw [hc]; exact rfl)⟩
  · rw [hc]
    decide

/-- Witness for `alias_miss_placeholder`: the example's own specifier. -/
theorem alias_miss_placeholder_witness :
    classify ["/App.jsx"] "/App.jsx" "@/components/Missing" =
      .placeholder "@/components/Missing" := by
  exact (alias_miss_placeholder ["/App.jsx"] "/App.jsx" "@/components/Missing"
    (by decide) (by decide)).1

/-! ### The transformer is pure and total -/

/-- C5: the transformer is a pure, deterministic, total function: two
applications to the same (path, source) pair give the same result, and
the result is always either executable text or a structured error value
carrying the file's path with its line, column and message — it never
escapes as an exception. -/
theorem transform_pure_total (path src : String) :
    (∀ r1 r2 : Except SynErr String,
      transform path src = r1 → transform path src = r2 → r1 = r2) ∧
    ((∃ out, transform path src = .ok out) ∨
      (∃ e : SynErr, transform path src = .error e ∧ e.path = path)) := by
  constructor
  · intro r1 r2 h1 h2
    rw [← h1, ← h2]
  · cases hsc : scanChars src.data 1 0 0 with
    | none => exact Or.inl ⟨src, by simp [transform, hsc]⟩
    | some e =>
      exact Or.inr ⟨⟨path, e.1, e.2, "Unexpected end of input in JSX element"⟩,
        by simp [transform, hsc], rfl⟩

/-- Witness for `transform_pure_total`: a plain source transforms to
itself, deterministically. -/
theorem transform_pure_total_witness :
    transform "/App.jsx" "const a = 1" = .ok "const a = 1" := by
  exact (transform_pure_total "/App.jsx" "const a = 1").1
    (transform "/App.jsx" "const a = 1") (.ok "const a = 1") rfl (by rfl)

/-! ### MessageInput -/

/-- C8: the submit button is disabled exactly when `isLoading` is true or
the input trims to the empty string; hence a whitespace-only non-empty
input cannot be submitted via the button even when not loading; and the
rendered button carries exactly this disabled flag. -/
theorem submit_button_disabled_iff (props : MessageInputProps) :
    (submitDisabled props = true ↔
      (props.isLoading = true ∨ jsTrim props.input = "")) ∧
    (props.input ≠ "" → jsTrim props.input = "" → props.isLoading = false →
      submitDisabled props = true) ∧
    attrInOpt (buttonOf (renderMessageInput props)) "disabled" =
      some (.b (submitDisabled props)) := by
  refine ⟨?_, ?_, rfl⟩
  · simp [submitDisabled]
  · intro h1 h2 h3
    simp [submitDisabled, h2, h3]

/-- Witness for `submit_button_disabled_iff`: three blanks disable the
button while not loading. -/
theorem submit_button_disabled_iff_witness :
    submitDisabled ⟨"   ", 0, 0, false⟩ = true := by
  exact (submit_button_disabled_iff ⟨"   ", 0, 0, false⟩).2.1
    (by decide) (by decide) rfl

/-- C9 (counterexample): the claim "for every other key event —
including Shift+Enter — the handler performs no action" fails at the
concrete event (key `Enter`, shift up, null form): the event is outside
the claimed trigger set yet the handler calls `preventDefault`. -/
theorem handleKeyDown_claim_false :
    handleKeyDown ⟨"Enter", false, none⟩ = [.preventDefault] ∧
    ¬ (∀ e : KeyEvt,
        (¬(e.key = "Enter" ∧ e.shiftKey = false ∧ e.form ≠ none)) →
          handleKeyDown e = []) := by
  constructor
  · rfl
  · intro hclaim
    have h := hclaim ⟨"Enter", false, none⟩ (by rintro ⟨-, -, h⟩; exact h rfl)
    simp [handleKeyDown] at h

/-- C9 (amended): `handleKeyDown` calls `preventDefault` and submits
through `requestSubmit` exactly when the key is `Enter` with shift up
and the form non-null; when the key is not `Enter` or shift is held it
performs no action (the default newline stays intact); on `Enter` with
shift up but a null form it calls `preventDefault` only, submitting
nothing. -/
theorem handleKeyDown_spec (e : KeyEvt) :
    ((∃ f, e.form = some f ∧
        handleKeyDown e = [.preventDefault, .requestSubmit f]) ↔
      (e.key = "Enter" ∧ e.shiftKey = false ∧ e.form ≠ none)) ∧
    ((e.key ≠ "Enter" ∨ e.shiftKey = true) → handleKeyDown e = []) ∧
    (e.key = "Enter" → e.shiftKey = false → e.form = none →
      handleKeyDown e = [.preventDefault]) := by
  rcases e with ⟨k, s, f⟩
  refine ⟨⟨?_, ?_⟩, ?_, ?_⟩
  · rintro ⟨f0, hf, hact⟩
    have hf2 : f = some f0 := hf
    by_cases hcond : k = "Enter" ∧ s = false
    · exact ⟨hcond.1, hcond.2, by simp [hf2]⟩
    · simp [handleKeyDown, hcond] at hact
  · rintro ⟨hk, hs, hf⟩
    have hk2 : k = "Enter" := hk
    have hs2 : s = false := hs
    have hf2 : f ≠ none := hf
    cases hf3 : f with
    | none => exact absurd hf3 hf2
    | some f0 => exact ⟨f0, by simp [hf3], by simp [handleKeyDown, hk2, hs2, hf3]⟩
  · intro h
    rcases h with h | h
    · have h2 : k ≠ "Enter" := h
      simp [handleKeyDown, h2]
    · have h2 : s = true := h
      simp [handleKeyDown, h2]
  · intro hk hs hf
    have hk2 : k = "Enter" := hk
    have hs2 : s = false := hs
    have hf2 : f = none := hf
    simp [handleKeyDown, hk2, hs2, hf2]

/-- Witness for `handleKeyDown_spec`: a plain letter key does nothing. -/
theorem handleKeyDown_spec_witness :
    handleKeyDown ⟨"a", false, none⟩ = [] := by
  exact (handleKeyDown_spec ⟨"a", false, none⟩).2.1 (Or.inl (by decide))

/-- C10: the render is a deterministic pure function of the props — equal
props give an identical element tree — and the textarea is controlled:
its `value` attribute is exactly the `input` prop and it is disabled
exactly when `isLoading` is true. -/
theorem render_deterministic_controlled (p1 p2 : MessageInputProps) :
    (p1 = p2 → renderMessageInput p1 = renderMessageInput p2) ∧
    attrInOpt (textareaOf (renderMessageInput p1)) "value" = some (.s p1.input) ∧
    attrInOpt (textareaOf (renderMessageInput p1)) "disabled" =
      some (.b p1.isLoading) := by
  exact ⟨fun h => by rw [h], rfl, rfl⟩

/-- Witness for `render_deterministic_controlled`: concrete equal props
render identical trees. -/
theorem render_deterministic_controlled_witness :
    renderMessageInput ⟨"hi", 1, 2, false⟩ = renderMessageInput ⟨"hi", 1, 2, false⟩ := by
  exact (render_deterministic_controlled ⟨"hi", 1, 2, false⟩ ⟨"hi", 1, 2, false⟩).1 rfl

end UIGen
